import Mathlib

/-!
Shallow embedding of the `tx-engine` repository: the fixed-point amount layer
(`src/types.rs`) and the ledger engine (`src/engine.rs`).

Conventions of the embedding:
* The Rust `i64` balances and amounts are modelled as `Int`, with saturating
  arithmetic clamping explicitly to `[-2^63, 2^63 - 1]`.
* `rust_decimal::Decimal` (an external crate) is modelled as an exact scaled
  integer `mantissa / 10^scale`; its arithmetic and comparisons are modelled
  as exact rational arithmetic.
* The two `HashMap`s are modelled as functions to `Option`, updated pointwise;
  client ids (`u16`) and transaction ids (`u32`) are modelled as `Nat`
  (the engine only ever compares them for equality).
-/

namespace TxEngine

/-- The i64 range bounds used by Rust's saturating arithmetic. -/
def I64.MIN : Int := -(2 ^ 63)

/-- Upper i64 bound. -/
def I64.MAX : Int := 2 ^ 63 - 1

/-- Model of `rust_decimal::Decimal`: an exact decimal number
`mantissa / 10 ^ scale`. -/
structure Dec where
  mantissa : Int
  scale : Nat
deriving DecidableEq

/-- The exact rational value of a decimal. -/
def Dec.val (d : Dec) : ℚ := (d.mantissa : ℚ) / ((10 : ℚ) ^ d.scale)

/-- `SCALE` from `types.rs`: scale factor for fixed-point arithmetic. -/
def SCALE : Int := 10000

/-- `Decimal::trunc`: truncation toward zero of a (scaled) decimal value. -/
def decTrunc (q : ℚ) : Int := if 0 ≤ q then ⌊q⌋ else ⌈q⌉

/-- `ToPrimitive::to_i64` on an integer-valued decimal: `some` iff the value
fits in the i64 range. -/
def toI64 (t : Int) : Option Int :=
  if I64.MIN ≤ t ∧ t ≤ I64.MAX then some t else none

/-- `to_fixed` from `types.rs`:
`(d * Decimal::from(SCALE)).trunc().to_i64().unwrap_or(0)`. -/
def to_fixed (d : Dec) : Int :=
  (toI64 (decTrunc (d.val * (SCALE : ℚ)))).getD 0

/-- Decimal rendering of a natural number (the `{}` of Rust's `format!`). -/
def natToString (n : ℕ) : String :=
  if n = 0 then "0" else ⟨((Nat.digits 10 n).reverse.map Nat.digitChar)⟩

/-- Zero padding to width 4 (the `{:04}` of Rust's `format!`). -/
def pad4 (s : String) : String :=
  ⟨List.replicate (4 - s.length) '0'⟩ ++ s

/-- `format_fixed` from `types.rs`.  `value.wrapping_abs() as u64` is modelled
as `value.natAbs % 2^64`: for any i64 input the wrapping only matters at
`i64::MIN`, whose two's-complement bit pattern reinterpreted as `u64` is
`2^63 = Int.natAbs i64.MIN`. -/
def format_fixed (value : Int) : String :=
  let abs_value : ℕ := value.natAbs % 2 ^ 64
  let whole := abs_value / 10000
  let frac := abs_value % 10000
  if value < 0 then
    "-" ++ natToString whole ++ "." ++ pad4 (natToString frac)
  else
    natToString whole ++ "." ++ pad4 (natToString frac)

/-- `TransactionType` from `types.rs`. -/
inductive TransactionType where
  | Deposit
  | Withdrawal
  | Dispute
  | Resolve
  | Chargeback
deriving DecidableEq

/-- `Transaction` (input record) from `types.rs`. -/
structure Transaction where
  tx_type : TransactionType
  client : ℕ
  tx : ℕ
  amount : Option Dec
deriving DecidableEq

/-- `DisputeState` from `types.rs`. -/
inductive DisputeState where
  | None
  | Disputed
  | ChargedBack
deriving DecidableEq

/-- `StoredTransaction` from `types.rs`. -/
structure StoredTransaction where
  client : ℕ
  amount : Int
  dispute_state : DisputeState
deriving DecidableEq

/-- `Account` from `types.rs`. -/
structure Account where
  available : Int
  held : Int
  locked : Bool
deriving DecidableEq

/-- `Default` for `Account`: all fields zero/false. -/
def Account.default : Account := ⟨0, 0, false⟩

/-- `Account::total`. -/
def Account.total (a : Account) : Int := a.available + a.held

/-- `i64::saturating_add`. -/
def satAdd (a b : Int) : Int := max I64.MIN (min I64.MAX (a + b))

/-- `i64::saturating_sub`. -/
def satSub (a b : Int) : Int := max I64.MIN (min I64.MAX (a - b))

/-- The engine state (`Engine` from `engine.rs`): the two hash maps. -/
@[ext]
structure Engine where
  accounts : ℕ → Option Account
  transactions : ℕ → Option StoredTransaction

/-- `Engine::new`. -/
def Engine.new : Engine := ⟨fun _ => none, fun _ => none⟩

/-- Pointwise map update (`HashMap::insert` / in-place mutation through
`entry` or `get_mut`). -/
def updMap {α : Type} (m : ℕ → Option α) (k : ℕ) (v : α) : ℕ → Option α :=
  fun k' => if k' = k then some v else m k'

/-- `Engine::deposit`.  Note that `entry(tx.client).or_default()` inserts the
default account before the `locked` check, and a successful deposit overwrites
any stored transaction sharing the id. -/
def Engine.deposit (s : Engine) (tx : Transaction) : Engine :=
  match tx.amount with
  | none => s
  | some d =>
    if d.val ≤ 0 then s
    else
      let amount := to_fixed d
      let account := (s.accounts tx.client).getD Account.default
      let s1 : Engine := { s with accounts := updMap s.accounts tx.client account }
      if account.locked then s1
      else
        { accounts := updMap s1.accounts tx.client
            { account with available := satAdd account.available amount },
          transactions := updMap s.transactions tx.tx
            ⟨tx.client, amount, DisputeState.None⟩ }

/-- `Engine::withdrawal`. -/
def Engine.withdrawal (s : Engine) (tx : Transaction) : Engine :=
  match tx.amount with
  | none => s
  | some d =>
    if d.val ≤ 0 then s
    else
      let amount := to_fixed d
      let account := (s.accounts tx.client).getD Account.default
      let s1 : Engine := { s with accounts := updMap s.accounts tx.client account }
      if account.locked then s1
      else if amount ≤ account.available then
        let account' := { account with available := satSub account.available amount }
        { s1 with accounts := updMap s1.accounts tx.client account' }
      else s1

/-- `Engine::dispute`. -/
def Engine.dispute (s : Engine) (tx : Transaction) : Engine :=
  match s.transactions tx.tx with
  | none => s
  | some stored =>
    if stored.client ≠ tx.client ∨ stored.dispute_state ≠ DisputeState.None then s
    else
      let account := (s.accounts tx.client).getD Account.default
      { accounts := updMap s.accounts tx.client
          { account with
              available := satSub account.available stored.amount,
              held := satAdd account.held stored.amount },
        transactions := updMap s.transactions tx.tx
          { stored with dispute_state := DisputeState.Disputed } }

/-- `Engine::resolve`. -/
def Engine.resolve (s : Engine) (tx : Transaction) : Engine :=
  match s.transactions tx.tx with
  | none => s
  | some stored =>
    if stored.client ≠ tx.client ∨ stored.dispute_state ≠ DisputeState.Disputed then s
    else
      let account := (s.accounts tx.client).getD Account.default
      { accounts := updMap s.accounts tx.client
          { account with
              held := satSub account.held stored.amount,
              available := satAdd account.available stored.amount },
        transactions := updMap s.transactions tx.tx
          { stored with dispute_state := DisputeState.None } }

/-- `Engine::chargeback`. -/
def Engine.chargeback (s : Engine) (tx : Transaction) : Engine :=
  match s.transactions tx.tx with
  | none => s
  | some stored =>
    if stored.client ≠ tx.client ∨ stored.dispute_state ≠ DisputeState.Disputed then s
    else
      let account := (s.accounts tx.client).getD Account.default
      { accounts := updMap s.accounts tx.client
          { account with
              held := satSub account.held stored.amount,
              locked := true },
        transactions := updMap s.transactions tx.tx
          { stored with dispute_state := DisputeState.ChargedBack } }

/-- `Engine::process`: dispatch on the transaction type. -/
def Engine.process (s : Engine) (tx : Transaction) : Engine :=
  match tx.tx_type with
  | TransactionType.Deposit => s.deposit tx
  | TransactionType.Withdrawal => s.withdrawal tx
  | TransactionType.Dispute => s.dispute tx
  | TransactionType.Resolve => s.resolve tx
  | TransactionType.Chargeback => s.chargeback tx

/-- Processing a whole input stream in order. -/
def runAll (s : Engine) (rs : List Transaction) : Engine :=
  rs.foldl Engine.process s

/-- The account of a client as the handlers see it
(`entry(..).or_default()` semantics: a missing entry reads as the default). -/
def acct (s : Engine) (c : ℕ) : Account := (s.accounts c).getD Account.default

/-! ### Bridge lemmas: computable characterizations of the decimal layer -/

/-- A decimal is ≤ 0 exactly when its mantissa is. -/
theorem Dec.val_nonpos_iff (d : Dec) : d.val ≤ 0 ↔ d.mantissa ≤ 0 := by
  have h : (0 : ℚ) < (10 : ℚ) ^ d.scale := by positivity
  rw [Dec.val, div_le_iff₀ h, zero_mul, Int.cast_nonpos]

/-- A decimal is > 0 exactly when its mantissa is. -/
theorem Dec.val_pos_iff (d : Dec) : 0 < d.val ↔ 0 < d.mantissa := by
  rw [lt_iff_not_le, lt_iff_not_le, Dec.val_nonpos_iff]

/-- Truncation toward zero of an integer fraction is t-division. -/
theorem decTrunc_intCast_div (a : Int) (n : ℕ) (hn : 0 < n) :
    decTrunc ((a : ℚ) / (n : ℚ)) = a.tdiv n := by
  have hn' : (0 : ℚ) < (n : ℚ) := by exact_mod_cast hn
  rcases le_or_lt 0 a with ha | ha
  · have hq : (0 : ℚ) ≤ (a : ℚ) / (n : ℚ) := by positivity
    rw [decTrunc, if_pos hq, Rat.floor_intCast_div_natCast,
      Int.tdiv_eq_ediv ha (by exact_mod_cast hn.le)]
  · have hq : (a : ℚ) / (n : ℚ) < 0 :=
      div_neg_of_neg_of_pos (by exact_mod_cast ha) hn'
    rw [decTrunc, if_neg (not_le.2 hq),
      show ((a : ℚ) / (n : ℚ)) = -(((-a : Int) : ℚ) / (n : ℚ)) by push_cast; ring,
      Int.ceil_neg, Rat.floor_intCast_div_natCast,
      ← Int.tdiv_eq_ediv (by omega) (by exact_mod_cast hn.le),
      Int.neg_tdiv, Int.neg_neg]

/-- The fully computable form of `to_fixed`: scale the mantissa, t-divide by
the scale denominator, clamp out-of-i64-range results to zero. -/
theorem to_fixed_eq (d : Dec) :
    to_fixed d =
      (if I64.MIN ≤ (d.mantissa * 10000).tdiv ((10 : Int) ^ d.scale) ∧
          (d.mantissa * 10000).tdiv ((10 : Int) ^ d.scale) ≤ I64.MAX
        then (d.mantissa * 10000).tdiv ((10 : Int) ^ d.scale) else 0) := by
  have hcast : d.val * (SCALE : ℚ) =
      ((d.mantissa * 10000 : Int) : ℚ) / ((10 ^ d.scale : ℕ) : ℚ) := by
    rw [Dec.val, SCALE]
    push_cast
    ring
  have h10 : ((10 : Int) ^ d.scale) = ((10 ^ d.scale : ℕ) : Int) := by push_cast; ring
  rw [to_fixed, hcast, decTrunc_intCast_div _ _ (by positivity), toI64, h10]
  split <;> rfl

/-- Numeral form of the lower i64 bound. -/
theorem I64.MIN_eq : I64.MIN = -9223372036854775808 := by norm_num [I64.MIN]

/-- Numeral form of the upper i64 bound. -/
theorem I64.MAX_eq : I64.MAX = 9223372036854775807 := by norm_num [I64.MAX]

/-- The result of `to_fixed` always lies in the i64 range. -/
theorem to_fixed_mem_range (d : Dec) :
    I64.MIN ≤ to_fixed d ∧ to_fixed d ≤ I64.MAX := by
  rw [to_fixed, toI64]
  split
  · next h => simpa using h
  · simp [I64.MIN_eq, I64.MAX_eq]

/-- A positive decimal scales to a nonnegative fixed-point amount. -/
theorem to_fixed_nonneg (d : Dec) (h : 0 < d.val) : 0 ≤ to_fixed d := by
  have hq : (0 : ℚ) ≤ d.val * (SCALE : ℚ) := by
    have : (0 : ℚ) < (SCALE : ℚ) := by norm_num [SCALE]
    positivity
  have ht : 0 ≤ decTrunc (d.val * (SCALE : ℚ)) := by
    rw [decTrunc, if_pos hq]
    exact Int.floor_nonneg.2 hq
  rw [to_fixed, toI64]
  split
  · simpa using ht
  · simp

/-- Saturating addition is exact inside the i64 range. -/
theorem satAdd_eq (a b : Int) (h1 : I64.MIN ≤ a + b) (h2 : a + b ≤ I64.MAX) :
    satAdd a b = a + b := by
  rw [satAdd]
  rw [I64.MIN_eq] at h1 ⊢
  rw [I64.MAX_eq] at h2 ⊢
  omega

/-- Saturating subtraction is exact inside the i64 range. -/
theorem satSub_eq (a b : Int) (h1 : I64.MIN ≤ a - b) (h2 : a - b ≤ I64.MAX) :
    satSub a b = a - b := by
  rw [satSub]
  rw [I64.MIN_eq] at h1 ⊢
  rw [I64.MAX_eq] at h2 ⊢
  omega

/-! ### Map update lemmas -/

theorem updMap_same {α : Type} (m : ℕ → Option α) (k : ℕ) (v : α) :
    updMap m k v k = some v := by simp [updMap]

theorem updMap_ne {α : Type} (m : ℕ → Option α) (k k' : ℕ) (v : α) (h : k' ≠ k) :
    updMap m k v k' = m k' := by simp [updMap, h]

theorem updMap_self {α : Type} (m : ℕ → Option α) (k : ℕ) (v : α) (h : m k = some v) :
    updMap m k v = m := by
  funext k'
  rw [updMap]
  split
  · next he => rw [he, h]
  · rfl

theorem updMap_updMap {α : Type} (m : ℕ → Option α) (k : ℕ) (v w : α) :
    updMap (updMap m k v) k w = updMap m k w := by
  funext k'
  rw [updMap, updMap, updMap]
  split <;> rfl

/-! ### Characterizations of the five handlers through `process` -/

section Handlers

variable (s : Engine) (r : Transaction)

/-- Deposit with an absent amount is a no-op. -/
theorem process_deposit_none (hty : r.tx_type = TransactionType.Deposit)
    (ha : r.amount = none) : Engine.process s r = s := by
  simp [Engine.process, hty, Engine.deposit, ha]

/-- Deposit with a non-positive amount is a no-op. -/
theorem process_deposit_nonpos (d : Dec) (hty : r.tx_type = TransactionType.Deposit)
    (ha : r.amount = some d) (hd : d.val ≤ 0) : Engine.process s r = s := by
  simp [Engine.process, hty, Engine.deposit, ha, hd]

/-- Deposit on a locked (hence existing) account is a no-op. -/
theorem process_deposit_locked (d : Dec) (a : Account)
    (hty : r.tx_type = TransactionType.Deposit)
    (ha : r.amount = some d) (hd : ¬d.val ≤ 0)
    (hacc : s.accounts r.client = some a) (hl : a.locked = true) :
    Engine.process s r = s := by
  simp only [Engine.process, hty, Engine.deposit, ha, if_neg hd, hacc, Option.getD_some, hl,
    if_pos]
  exact Engine.ext (updMap_self _ _ _ hacc) rfl

/-- Successful deposit: credit `available` (saturating) and store the
transaction, overwriting any record with the same id. -/
theorem process_deposit_success (d : Dec)
    (hty : r.tx_type = TransactionType.Deposit)
    (ha : r.amount = some d) (hd : ¬d.val ≤ 0)
    (hl : (acct s r.client).locked = false) :
    Engine.process s r =
      ⟨updMap s.accounts r.client
        ({ acct s r.client with
            available := satAdd (acct s r.client).available (to_fixed d) }),
       updMap s.transactions r.tx ⟨r.client, to_fixed d, DisputeState.None⟩⟩ := by
  rw [acct] at hl
  simp only [Engine.process, hty, Engine.deposit, ha, if_neg hd, hl, Bool.false_eq_true,
    if_false, updMap_updMap, acct]

/-- Withdrawal with an absent amount is a no-op. -/
theorem process_withdrawal_none (hty : r.tx_type = TransactionType.Withdrawal)
    (ha : r.amount = none) : Engine.process s r = s := by
  simp [Engine.process, hty, Engine.withdrawal, ha]

/-- Withdrawal with a non-positive amount is a no-op. -/
theorem process_withdrawal_nonpos (d : Dec) (hty : r.tx_type = TransactionType.Withdrawal)
    (ha : r.amount = some d) (hd : d.val ≤ 0) : Engine.process s r = s := by
  simp [Engine.process, hty, Engine.withdrawal, ha, hd]

/-- Withdrawal on a locked (hence existing) account is a no-op. -/
theorem process_withdrawal_locked (d : Dec) (a : Account)
    (hty : r.tx_type = TransactionType.Withdrawal)
    (ha : r.amount = some d) (hd : ¬d.val ≤ 0)
    (hacc : s.accounts r.client = some a) (hl : a.locked = true) :
    Engine.process s r = s := by
  simp only [Engine.process, hty, Engine.withdrawal, ha, if_neg hd, hacc, Option.getD_some,
    hl, if_pos]
  exact Engine.ext (updMap_self _ _ _ hacc) rfl

/-- Withdrawal rejected by the insufficient-funds check: the stored
transactions and all balances are unchanged, but the default account entry
has been materialized. -/
theorem process_withdrawal_insufficient (d : Dec)
    (hty : r.tx_type = TransactionType.Withdrawal)
    (ha : r.amount = some d) (hd : ¬d.val ≤ 0)
    (hl : (acct s r.client).locked = false)
    (hin : (acct s r.client).available < to_fixed d) :
    Engine.process s r = ⟨updMap s.accounts r.client (acct s r.client), s.transactions⟩ := by
  rw [acct] at hl hin ⊢
  simp only [Engine.process, hty, Engine.withdrawal, ha, if_neg hd, hl, Bool.false_eq_true,
    if_false, if_neg (not_le.2 hin)]

/-- Successful withdrawal: debit `available` (saturating); the stored
transactions are untouched. -/
theorem process_withdrawal_success (d : Dec)
    (hty : r.tx_type = TransactionType.Withdrawal)
    (ha : r.amount = some d) (hd : ¬d.val ≤ 0)
    (hl : (acct s r.client).locked = false)
    (hin : to_fixed d ≤ (acct s r.client).available) :
    Engine.process s r =
      ⟨updMap s.accounts r.client
        ({ acct s r.client with
            available := satSub (acct s r.client).available (to_fixed d) }),
       s.transactions⟩ := by
  rw [acct] at hl hin ⊢
  simp only [Engine.process, hty, Engine.withdrawal, ha, if_neg hd, hl, Bool.false_eq_true,
    if_false, if_pos hin, updMap_updMap]

/-- Dispute of an unknown transaction id is a no-op (no account is created). -/
theorem process_dispute_missing (hty : r.tx_type = TransactionType.Dispute)
    (hst : s.transactions r.tx = none) : Engine.process s r = s := by
  simp [Engine.process, hty, Engine.dispute, hst]

/-- Dispute rejected because of a client mismatch or a non-`None` dispute
state is a no-op. -/
theorem process_dispute_reject (st : StoredTransaction)
    (hty : r.tx_type = TransactionType.Dispute)
    (hst : s.transactions r.tx = some st)
    (hrej : st.client ≠ r.client ∨ st.dispute_state ≠ DisputeState.None) :
    Engine.process s r = s := by
  simp [Engine.process, hty, Engine.dispute, hst, hrej]

/-- Successful dispute: move the stored amount from `available` to `held`
(saturating) and mark the stored transaction `Disputed`. -/
theorem process_dispute_success (st : StoredTransaction)
    (hty : r.tx_type = TransactionType.Dispute)
    (hst : s.transactions r.tx = some st)
    (hc : st.client = r.client) (hd : st.dispute_state = DisputeState.None) :
    Engine.process s r =
      ⟨updMap s.accounts r.client
        ({ acct s r.client with
            available := satSub (acct s r.client).available st.amount,
            held := satAdd (acct s r.client).held st.amount }),
       updMap s.transactions r.tx ({ st with dispute_state := DisputeState.Disputed })⟩ := by
  simp only [Engine.process, hty, Engine.dispute, hst, hc, hd, ne_eq, not_true_eq_false,
    false_or, if_false, acct]

/-- Resolve of an unknown transaction id is a no-op. -/
theorem process_resolve_missing (hty : r.tx_type = TransactionType.Resolve)
    (hst : s.transactions r.tx = none) : Engine.process s r = s := by
  simp [Engine.process, hty, Engine.resolve, hst]

/-- Resolve rejected because of a client mismatch or a non-`Disputed` state
is a no-op. -/
theorem process_resolve_reject (st : StoredTransaction)
    (hty : r.tx_type = TransactionType.Resolve)
    (hst : s.transactions r.tx = some st)
    (hrej : st.client ≠ r.client ∨ st.dispute_state ≠ DisputeState.Disputed) :
    Engine.process s r = s := by
  simp [Engine.process, hty, Engine.resolve, hst, hrej]

/-- Successful resolve: move the stored amount back from `held` to
`available` (saturating) and return the stored transaction to `None`. -/
theorem process_resolve_success (st : StoredTransaction)
    (hty : r.tx_type = TransactionType.Resolve)
    (hst : s.transactions r.tx = some st)
    (hc : st.client = r.client) (hd : st.dispute_state = DisputeState.Disputed) :
    Engine.process s r =
      ⟨updMap s.accounts r.client
        ({ acct s r.client with
            held := satSub (acct s r.client).held st.amount,
            available := satAdd (acct s r.client).available st.amount }),
       updMap s.transactions r.tx ({ st with dispute_state := DisputeState.None })⟩ := by
  simp only [Engine.process, hty, Engine.resolve, hst, hc, hd, ne_eq, not_true_eq_false,
    false_or, if_false, acct]

/-- Chargeback of an unknown transaction id is a no-op. -/
theorem process_chargeback_missing (hty : r.tx_type = TransactionType.Chargeback)
    (hst : s.transactions r.tx = none) : Engine.process s r = s := by
  simp [Engine.process, hty, Engine.chargeback, hst]

/-- Chargeback rejected because of a client mismatch or a non-`Disputed`
state is a no-op. -/
theorem process_chargeback_reject (st : StoredTransaction)
    (hty : r.tx_type = TransactionType.Chargeback)
    (hst : s.transactions r.tx = some st)
    (hrej : st.client ≠ r.client ∨ st.dispute_state ≠ DisputeState.Disputed) :
    Engine.process s r = s := by
  simp [Engine.process, hty, Engine.chargeback, hst, hrej]

/-- Successful chargeback: remove the stored amount from `held` (saturating),
lock the account, and mark the stored transaction `ChargedBack`. -/
theorem process_chargeback_success (st : StoredTransaction)
    (hty : r.tx_type = TransactionType.Chargeback)
    (hst : s.transactions r.tx = some st)
    (hc : st.client = r.client) (hd : st.dispute_state = DisputeState.Disputed) :
    Engine.process s r =
      ⟨updMap s.accounts r.client
        ({ acct s r.client with
            held := satSub (acct s r.client).held st.amount,
            locked := true }),
       updMap s.transactions r.tx ({ st with dispute_state := DisputeState.ChargedBack })⟩ := by
  simp only [Engine.process, hty, Engine.chargeback, hst, hc, hd, ne_eq, not_true_eq_false,
    false_or, if_false, acct]

end Handlers

/-- A locked account (as the handlers read it) must actually be present in
the map, since the default account is unlocked. -/
theorem acct_locked_some (s : Engine) (c : ℕ) (h : (acct s c).locked = true) :
    s.accounts c = some (acct s c) := by
  rw [acct] at h ⊢
  cases hc : s.accounts c
  · rw [hc] at h
    simp [Account.default] at h
  · simp

/-- Frame property: a record only ever writes the account entry of its own
client. -/
theorem process_accounts_frame (s : Engine) (r : Transaction) (c' : ℕ)
    (h : c' ≠ r.client) :
    (Engine.process s r).accounts c' = s.accounts c' := by
  cases hty : r.tx_type <;>
    simp only [Engine.process, hty, Engine.deposit, Engine.withdrawal, Engine.dispute,
      Engine.resolve, Engine.chargeback] <;>
    (repeat' split) <;>
    simp [updMap, h]

/-- Frame property: a record only ever writes the stored-transaction entry of
its own transaction id. -/
theorem process_transactions_frame (s : Engine) (r : Transaction) (t : ℕ)
    (h : t ≠ r.tx) :
    (Engine.process s r).transactions t = s.transactions t := by
  cases hty : r.tx_type <;>
    simp only [Engine.process, hty, Engine.deposit, Engine.withdrawal, Engine.dispute,
      Engine.resolve, Engine.chargeback] <;>
    (repeat' split) <;>
    simp [updMap, h]

/-- Any stored-transaction entry that a record changes is written with the
record's own client id and a nonnegative amount. -/
theorem process_stored_new (s : Engine) (r : Transaction) (t : ℕ)
    (hamt : ∀ t' st, s.transactions t' = some st → 0 ≤ st.amount) :
    (Engine.process s r).transactions t = s.transactions t ∨
    ∃ st', (Engine.process s r).transactions t = some st' ∧ st'.client = r.client ∧
      0 ≤ st'.amount := by
  by_cases ht : t = r.tx
  case neg => exact Or.inl (process_transactions_frame s r t ht)
  subst ht
  cases hty : r.tx_type
  · rcases ha : r.amount with _ | d
    · exact Or.inl (by rw [process_deposit_none s r hty ha])
    · by_cases hd : d.val ≤ 0
      · exact Or.inl (by rw [process_deposit_nonpos s r d hty ha hd])
      · cases hl : (acct s r.client).locked
        · rw [process_deposit_success s r d hty ha hd hl]
          refine Or.inr ⟨_, updMap_same _ _ _, rfl, ?_⟩
          exact to_fixed_nonneg d
            (by rw [Dec.val_pos_iff]; rw [Dec.val_nonpos_iff] at hd; omega)
        · exact Or.inl (by rw [process_deposit_locked s r d _ hty ha hd
            (acct_locked_some s r.client hl) hl])
  · refine Or.inl ?_
    simp only [Engine.process, hty, Engine.withdrawal]
    (repeat' split) <;> rfl
  · rcases hst : s.transactions r.tx with _ | st
    · exact Or.inl (by rw [process_dispute_missing s r hty hst]; exact hst)
    · by_cases hg : st.client = r.client ∧ st.dispute_state = DisputeState.None
      · rw [process_dispute_success s r st hty hst hg.1 hg.2]
        exact Or.inr ⟨_, updMap_same _ _ _, by simpa using hg.1, by simpa using hamt _ _ hst⟩
      · exact Or.inl (by
          rw [process_dispute_reject s r st hty hst (by tauto)]; exact hst)
  · rcases hst : s.transactions r.tx with _ | st
    · exact Or.inl (by rw [process_resolve_missing s r hty hst]; exact hst)
    · by_cases hg : st.client = r.client ∧ st.dispute_state = DisputeState.Disputed
      · rw [process_resolve_success s r st hty hst hg.1 hg.2]
        exact Or.inr ⟨_, updMap_same _ _ _, by simpa using hg.1, by simpa using hamt _ _ hst⟩
      · exact Or.inl (by
          rw [process_resolve_reject s r st hty hst (by tauto)]; exact hst)
  · rcases hst : s.transactions r.tx with _ | st
    · exact Or.inl (by rw [process_chargeback_missing s r hty hst]; exact hst)
    · by_cases hg : st.client = r.client ∧ st.dispute_state = DisputeState.Disputed
      · rw [process_chargeback_success s r st hty hst hg.1 hg.2]
        exact Or.inr ⟨_, updMap_same _ _ _, by simpa using hg.1, by simpa using hamt _ _ hst⟩
      · exact Or.inl (by
          rw [process_chargeback_reject s r st hty hst (by tauto)]; exact hst)

/-! ### C10: processing a record touches no other client's account -/

/-- C10: for every engine state and record, `process` mutates at most the
account entry of the record's own client; every other client's account entry
is exactly unchanged. -/
theorem c10_other_clients_unchanged (s : Engine) (r : Transaction) (c' : ℕ)
    (h : c' ≠ r.client) :
    (Engine.process s r).accounts c' = s.accounts c' :=
  process_accounts_frame s r c' h

/-- Witness for C10 at a concrete input. -/
theorem c10_other_clients_unchanged_witness :
    (Engine.process Engine.new
      ⟨TransactionType.Deposit, 1, 1, some ⟨100, 1⟩⟩).accounts 2 =
      Engine.new.accounts 2 :=
  c10_other_clients_unchanged Engine.new _ 2 (by decide)

/-! ### C7: withdrawal acceptance conditions -/

/-- C7: a withdrawal is accepted iff its amount is present, its decimal value
is strictly positive, the account is not locked, and `available` is at least
the fixed-point amount (withdrawal of the exact balance accepted); on
acceptance `available` decreases by exactly the fixed-point amount, and in
all cases no stored-transaction record is created or altered; on rejection
the account's fields are unchanged. -/
theorem c7_withdrawal_acceptance (s : Engine) (r : Transaction)
    (hty : r.tx_type = TransactionType.Withdrawal)
    (hrange : (acct s r.client).available ≤ I64.MAX) :
    ((Engine.process s r).transactions = s.transactions) ∧
    (∀ d, r.amount = some d → 0 < d.val → (acct s r.client).locked = false →
      to_fixed d ≤ (acct s r.client).available →
      (acct (Engine.process s r) r.client).available =
        (acct s r.client).available - to_fixed d) ∧
    (¬(∃ d, r.amount = some d ∧ 0 < d.val ∧ (acct s r.client).locked = false ∧
        to_fixed d ≤ (acct s r.client).available) →
      acct (Engine.process s r) r.client = acct s r.client) := by
  refine ⟨?_, ?_, ?_⟩
  · simp only [Engine.process, hty, Engine.withdrawal]
    (repeat' split) <;> rfl
  · intro d ha hdpos hl hin
    have h0 : 0 ≤ to_fixed d := to_fixed_nonneg d hdpos
    rw [process_withdrawal_success s r d hty ha (not_le.2 hdpos) hl hin]
    rw [acct] at hin hrange
    simp only [acct, updMap_same, Option.getD_some]
    exact satSub_eq _ _ (by rw [I64.MIN_eq]; omega)
      (by rw [I64.MAX_eq] at hrange ⊢; omega)
  · intro hrej
    rcases ha : r.amount with _ | d
    · rw [process_withdrawal_none s r hty ha]
    · by_cases hdpos : 0 < d.val
      · by_cases hl : (acct s r.client).locked = true
        · rw [process_withdrawal_locked s r d _ hty ha (not_le.2 hdpos)
            (acct_locked_some s r.client hl) hl]
        · rw [Bool.not_eq_true] at hl
          have hin : (acct s r.client).available < to_fixed d := by
            by_contra hin
            exact hrej ⟨d, ha, hdpos, hl, not_lt.1 hin⟩
          rw [process_withdrawal_insufficient s r d hty ha (not_le.2 hdpos) hl hin]
          simp [acct, updMap_same]
      · rw [process_withdrawal_nonpos s r d hty ha (not_lt.1 hdpos)]

/-- Witness for C7 at a concrete input. -/
theorem c7_withdrawal_acceptance_witness :
    ((Engine.process Engine.new ⟨TransactionType.Withdrawal, 1, 7, some ⟨1, 0⟩⟩).transactions =
      Engine.new.transactions) ∧
    (∀ d, (⟨TransactionType.Withdrawal, 1, 7, some ⟨1, 0⟩⟩ : Transaction).amount = some d →
      0 < d.val → (acct Engine.new 1).locked = false →
      to_fixed d ≤ (acct Engine.new 1).available →
      (acct (Engine.process Engine.new ⟨TransactionType.Withdrawal, 1, 7, some ⟨1, 0⟩⟩) 1).available =
        (acct Engine.new 1).available - to_fixed d) ∧
    (¬(∃ d, (⟨TransactionType.Withdrawal, 1, 7, some ⟨1, 0⟩⟩ : Transaction).amount = some d ∧
        0 < d.val ∧ (acct Engine.new 1).locked = false ∧
        to_fixed d ≤ (acct Engine.new 1).available) →
      acct (Engine.process Engine.new ⟨TransactionType.Withdrawal, 1, 7, some ⟨1, 0⟩⟩) 1 =
        acct Engine.new 1) :=
  c7_withdrawal_acceptance Engine.new ⟨TransactionType.Withdrawal, 1, 7, some ⟨1, 0⟩⟩
    rfl (by simp [acct, Engine.new, Account.default, I64.MAX_eq])

/-! ### C6: scope of the account lock -/

/-- C6: on a locked account every deposit and withdrawal is rejected with the
state exactly unchanged, while dispute, resolve and chargeback on that
client's stored transactions are still applied under the normal
state-machine rules (the lock never causes their rejection). -/
theorem c6_lock_scope (s : Engine) (c : ℕ) (a : Account)
    (hacc : s.accounts c = some a) (hl : a.locked = true) :
    (∀ r, r.client = c →
      (r.tx_type = TransactionType.Deposit ∨ r.tx_type = TransactionType.Withdrawal) →
      Engine.process s r = s) ∧
    (∀ r st, r.client = c → r.tx_type = TransactionType.Dispute →
      s.transactions r.tx = some st → st.client = c →
      st.dispute_state = DisputeState.None →
      Engine.process s r =
        ⟨updMap s.accounts c
          ({ acct s c with
              available := satSub (acct s c).available st.amount,
              held := satAdd (acct s c).held st.amount }),
         updMap s.transactions r.tx ({ st with dispute_state := DisputeState.Disputed })⟩) ∧
    (∀ r st, r.client = c → r.tx_type = TransactionType.Resolve →
      s.transactions r.tx = some st → st.client = c →
      st.dispute_state = DisputeState.Disputed →
      Engine.process s r =
        ⟨updMap s.accounts c
          ({ acct s c with
              held := satSub (acct s c).held st.amount,
              available := satAdd (acct s c).available st.amount }),
         updMap s.transactions r.tx ({ st with dispute_state := DisputeState.None })⟩) ∧
    (∀ r st, r.client = c → r.tx_type = TransactionType.Chargeback →
      s.transactions r.tx = some st → st.client = c →
      st.dispute_state = DisputeState.Disputed →
      Engine.process s r =
        ⟨updMap s.accounts c
          ({ acct s c with
              held := satSub (acct s c).held st.amount,
              locked := true }),
         updMap s.transactions r.tx ({ st with dispute_state := DisputeState.ChargedBack })⟩) := by
  refine ⟨?_, ?_, ?_, ?_⟩
  · intro r hrc hty
    rcases ha : r.amount with _ | d
    · rcases hty with hty | hty
      · exact process_deposit_none s r hty ha
      · exact process_withdrawal_none s r hty ha
    · by_cases hd : d.val ≤ 0
      · rcases hty with hty | hty
        · exact process_deposit_nonpos s r d hty ha hd
        · exact process_withdrawal_nonpos s r d hty ha hd
      · rcases hty with hty | hty
        · exact process_deposit_locked s r d a hty ha hd (hrc ▸ hacc) hl
        · exact process_withdrawal_locked s r d a hty ha hd (hrc ▸ hacc) hl
  · intro r st hrc hty hst hc hd
    rw [process_dispute_success s r st hty hst (by rw [hc, hrc]) hd, hrc]
  · intro r st hrc hty hst hc hd
    rw [process_resolve_success s r st hty hst (by rw [hc, hrc]) hd, hrc]
  · intro r st hrc hty hst hc hd
    rw [process_chargeback_success s r st hty hst (by rw [hc, hrc]) hd, hrc]

/-- A concrete engine state with a locked account holding a disputed stored
deposit, used to witness C6. -/
def c6State : Engine :=
  ⟨fun k => if k = 1 then some ⟨20, 0, true⟩ else none,
   fun k => if k = 3 then some ⟨1, 7, DisputeState.Disputed⟩ else none⟩

/-- Witness for C6 at a concrete input: on the locked account, a deposit is
dropped and a resolve of the disputed stored transaction still fires. -/
theorem c6_lock_scope_witness :
    Engine.process c6State ⟨TransactionType.Deposit, 1, 9, some ⟨5, 0⟩⟩ = c6State ∧
    Engine.process c6State ⟨TransactionType.Resolve, 1, 3, none⟩ =
      ⟨updMap c6State.accounts 1
        ({ acct c6State 1 with
            held := satSub (acct c6State 1).held 7,
            available := satAdd (acct c6State 1).available 7 }),
       updMap c6State.transactions 3 ⟨1, 7, DisputeState.None⟩⟩ :=
  ⟨(c6_lock_scope c6State 1 ⟨20, 0, true⟩ rfl rfl).1
      ⟨TransactionType.Deposit, 1, 9, some ⟨5, 0⟩⟩ rfl (Or.inl rfl),
   (c6_lock_scope c6State 1 ⟨20, 0, true⟩ rfl rfl).2.2.1
      ⟨TransactionType.Resolve, 1, 3, none⟩ ⟨1, 7, DisputeState.Disputed⟩ rfl rfl rfl rfl rfl⟩
/-! ### C1: silent rejection leaves the state unchanged -/

/-- C1 counterexample: a withdrawal rejected by the insufficient-funds check
for a client with no account entry does change the engine state — it
materializes a default account entry for that client. -/
theorem c1_counterexample :
    Engine.new.accounts 1 = none ∧
    (Engine.process Engine.new
      ⟨TransactionType.Withdrawal, 1, 1, some ⟨1, 0⟩⟩).accounts 1 =
      some ⟨0, 0, false⟩ := by
  refine ⟨rfl, ?_⟩
  simp only [Engine.process, Engine.withdrawal, Dec.val_nonpos_iff, to_fixed_eq]
  decide

/-- C1 (amended): every precondition failure (missing amount, non-positive
amount, locked account, insufficient funds, unknown/mismatched/wrong-state
dispute target) drops the record with no change to any balance or stored
transaction; the engine state is exactly unchanged in every case except that
an insufficient-funds withdrawal may materialize a default zeroed account
entry for a previously unknown client (when the entry exists, that case too
is exactly unchanged). -/
theorem c1_silent_rejection (s : Engine) (r : Transaction) :
    ((r.tx_type = TransactionType.Deposit ∨ r.tx_type = TransactionType.Withdrawal) →
      r.amount = none → Engine.process s r = s) ∧
    (∀ d, (r.tx_type = TransactionType.Deposit ∨ r.tx_type = TransactionType.Withdrawal) →
      r.amount = some d → d.val ≤ 0 → Engine.process s r = s) ∧
    (∀ d a, (r.tx_type = TransactionType.Deposit ∨ r.tx_type = TransactionType.Withdrawal) →
      r.amount = some d → ¬d.val ≤ 0 → s.accounts r.client = some a → a.locked = true →
      Engine.process s r = s) ∧
    (∀ d, r.tx_type = TransactionType.Withdrawal → r.amount = some d → ¬d.val ≤ 0 →
      (acct s r.client).locked = false → (acct s r.client).available < to_fixed d →
      (Engine.process s r).transactions = s.transactions ∧
      acct (Engine.process s r) r.client = acct s r.client ∧
      (∀ a, s.accounts r.client = some a → Engine.process s r = s)) ∧
    ((r.tx_type = TransactionType.Dispute ∨ r.tx_type = TransactionType.Resolve ∨
        r.tx_type = TransactionType.Chargeback) →
      s.transactions r.tx = none → Engine.process s r = s) ∧
    (∀ st, r.tx_type = TransactionType.Dispute → s.transactions r.tx = some st →
      st.client ≠ r.client ∨ st.dispute_state ≠ DisputeState.None →
      Engine.process s r = s) ∧
    (∀ st, r.tx_type = TransactionType.Resolve → s.transactions r.tx = some st →
      st.client ≠ r.client ∨ st.dispute_state ≠ DisputeState.Disputed →
      Engine.process s r = s) ∧
    (∀ st, r.tx_type = TransactionType.Chargeback → s.transactions r.tx = some st →
      st.client ≠ r.client ∨ st.dispute_state ≠ DisputeState.Disputed →
      Engine.process s r = s) := by
  refine ⟨?_, ?_, ?_, ?_, ?_, ?_, ?_, ?_⟩
  · rintro (hty | hty) ha
    · exact process_deposit_none s r hty ha
    · exact process_withdrawal_none s r hty ha
  · rintro d (hty | hty) ha hd
    · exact process_deposit_nonpos s r d hty ha hd
    · exact process_withdrawal_nonpos s r d hty ha hd
  · rintro d a (hty | hty) ha hd hacc hl
    · exact process_deposit_locked s r d a hty ha hd hacc hl
    · exact process_withdrawal_locked s r d a hty ha hd hacc hl
  · intro d hty ha hd hl hin
    rw [process_withdrawal_insufficient s r d hty ha hd hl hin]
    refine ⟨rfl, by simp [acct, updMap_same], ?_⟩
    intro a hacc
    refine Engine.ext ?_ rfl
    show updMap s.accounts r.client (acct s r.client) = s.accounts
    rw [acct, hacc]
    exact updMap_self _ _ _ (by rw [hacc]; rfl)
  · rintro (hty | hty | hty) hst
    · exact process_dispute_missing s r hty hst
    · exact process_resolve_missing s r hty hst
    · exact process_chargeback_missing s r hty hst
  · intro st hty hst hrej
    exact process_dispute_reject s r st hty hst hrej
  · intro st hty hst hrej
    exact process_resolve_reject s r st hty hst hrej
  · intro st hty hst hrej
    exact process_chargeback_reject s r st hty hst hrej

/-- Witness for C1 at a concrete input: a deposit with a missing amount is
dropped with no state change. -/
theorem c1_silent_rejection_witness :
    Engine.process Engine.new ⟨TransactionType.Deposit, 1, 1, none⟩ = Engine.new :=
  (c1_silent_rejection Engine.new ⟨TransactionType.Deposit, 1, 1, none⟩).1 (Or.inl rfl) rfl

/-! ### C2: lazy account creation -/

/-- C2 counterexample: a dispute naming a client with no account and an
unknown transaction id creates no account entry — the handler returns before
the `entry(..).or_default()` call. -/
theorem c2_counterexample :
    (Engine.process Engine.new ⟨TransactionType.Dispute, 1, 99, none⟩).accounts 1 = none := by
  rfl

/-- C2 (amended): an account entry is created for a previously unknown client
by a deposit or withdrawal whose amount is present and positive (initialized
to all-zero/unlocked before the handler's own effect, so a rejected
withdrawal leaves a zeroed entry and an accepted deposit leaves
`available = amount`); dispute, resolve and chargeback referencing an
unknown transaction id are complete no-ops and create no account entry. -/
theorem c2_lazy_creation (s : Engine) (r : Transaction) :
    (∀ d, r.tx_type = TransactionType.Deposit → r.amount = some d → 0 < d.val →
      s.accounts r.client = none →
      (Engine.process s r).accounts r.client = some ⟨to_fixed d, 0, false⟩) ∧
    (∀ d, r.tx_type = TransactionType.Withdrawal → r.amount = some d → 0 < d.val →
      s.accounts r.client = none →
      (Engine.process s r).accounts r.client = some ⟨0, 0, false⟩) ∧
    ((r.tx_type = TransactionType.Dispute ∨ r.tx_type = TransactionType.Resolve ∨
        r.tx_type = TransactionType.Chargeback) →
      s.transactions r.tx = none → Engine.process s r = s) := by
  have hrange := to_fixed_mem_range
  refine ⟨?_, ?_, ?_⟩
  · intro d hty ha hdpos hacc
    have hl : (acct s r.client).locked = false := by
      rw [acct, hacc]
      rfl
    have hs : satAdd (0 : Int) (to_fixed d) = to_fixed d := by
      rw [satAdd_eq 0 (to_fixed d) (by simpa using (hrange d).1)
        (by simpa using (hrange d).2), zero_add]
    rw [process_deposit_success s r d hty ha (not_le.2 hdpos) hl]
    simp only [updMap_same, acct, hacc, Option.getD_none, Account.default, hs]
  · intro d hty ha hdpos hacc
    have hl : (acct s r.client).locked = false := by
      rw [acct, hacc]
      rfl
    by_cases hin : to_fixed d ≤ (acct s r.client).available
    · have h0 : to_fixed d = 0 := by
        have hn := to_fixed_nonneg d hdpos
        rw [acct, hacc] at hin
        simp [Account.default] at hin
        omega
      have hs : satSub (0 : Int) (0 : Int) = 0 := by
        rw [satSub_eq] <;> norm_num [I64.MIN_eq, I64.MAX_eq]
      rw [process_withdrawal_success s r d hty ha (not_le.2 hdpos) hl hin]
      simp only [updMap_same, acct, hacc, Option.getD_none, Account.default, h0, hs]
    · rw [process_withdrawal_insufficient s r d hty ha (not_le.2 hdpos) hl (not_le.1 hin)]
      simp only [updMap_same, acct, hacc, Option.getD_none, Account.default]
  · rintro (hty | hty | hty) hst
    · exact process_dispute_missing s r hty hst
    · exact process_resolve_missing s r hty hst
    · exact process_chargeback_missing s r hty hst

/-- Witness for C2 at a concrete input: a first deposit creates the account
entry (zeroed, then credited). -/
theorem c2_lazy_creation_witness :
    (Engine.process Engine.new
      ⟨TransactionType.Deposit, 5, 2, some ⟨7, 0⟩⟩).accounts 5 =
      some ⟨to_fixed ⟨7, 0⟩, 0, false⟩ :=
  (c2_lazy_creation Engine.new ⟨TransactionType.Deposit, 5, 2, some ⟨7, 0⟩⟩).1
    ⟨7, 0⟩ rfl rfl (by rw [Dec.val_pos_iff]; decide) rfl

/-! ### C5: chargeback terminality -/

/-- C5 counterexample: after a successful chargeback on transaction id 1 the
stored record is `ChargedBack`, but a later accepted deposit by a different
(unlocked) client reusing id 1 overwrites the stored record, which thereby
leaves the `ChargedBack` state. -/
theorem c5_counterexample :
    (runAll Engine.new
      [⟨TransactionType.Deposit, 0, 1, some ⟨5, 0⟩⟩,
       ⟨TransactionType.Dispute, 0, 1, none⟩,
       ⟨TransactionType.Chargeback, 0, 1, none⟩]).transactions 1 =
      some ⟨0, 50000, DisputeState.ChargedBack⟩ ∧
    (runAll Engine.new
      [⟨TransactionType.Deposit, 0, 1, some ⟨5, 0⟩⟩,
       ⟨TransactionType.Dispute, 0, 1, none⟩,
       ⟨TransactionType.Chargeback, 0, 1, none⟩,
       ⟨TransactionType.Deposit, 1, 1, some ⟨3, 0⟩⟩]).transactions 1 =
      some ⟨1, 30000, DisputeState.None⟩ := by
  constructor <;>
    · simp only [runAll, List.foldl, Engine.process, Engine.deposit, Engine.dispute,
        Engine.chargeback, Dec.val_nonpos_iff, to_fixed_eq]
      decide

/-- C5 (amended): once a stored transaction is `ChargedBack`, every
subsequent dispute, resolve or chargeback record naming its transaction id
(by any client) is rejected with the engine state exactly unchanged, and no
dispute/resolve/chargeback record ever moves the stored transaction out of
`ChargedBack`; only an accepted deposit that reuses the transaction id can
overwrite the stored record and reset its state. -/
theorem c5_chargeback_terminal (s : Engine) (t : ℕ) (st : StoredTransaction)
    (hst : s.transactions t = some st)
    (hcb : st.dispute_state = DisputeState.ChargedBack) :
    (∀ r, (r.tx_type = TransactionType.Dispute ∨ r.tx_type = TransactionType.Resolve ∨
        r.tx_type = TransactionType.Chargeback) → r.tx = t →
      Engine.process s r = s) ∧
    (∀ r, (r.tx_type = TransactionType.Dispute ∨ r.tx_type = TransactionType.Resolve ∨
        r.tx_type = TransactionType.Chargeback) →
      (Engine.process s r).transactions t = s.transactions t) := by
  have hreject : ∀ r : Transaction,
      (r.tx_type = TransactionType.Dispute ∨ r.tx_type = TransactionType.Resolve ∨
        r.tx_type = TransactionType.Chargeback) → r.tx = t →
      Engine.process s r = s := by
    rintro r (hty | hty | hty) hrt
    · exact process_dispute_reject s r st hty (hrt ▸ hst)
        (Or.inr (by rw [hcb]; exact fun h => DisputeState.noConfusion h))
    · exact process_resolve_reject s r st hty (hrt ▸ hst)
        (Or.inr (by rw [hcb]; exact fun h => DisputeState.noConfusion h))
    · exact process_chargeback_reject s r st hty (hrt ▸ hst)
        (Or.inr (by rw [hcb]; exact fun h => DisputeState.noConfusion h))
  refine ⟨hreject, ?_⟩
  intro r hty
  by_cases hrt : r.tx = t
  · rw [hreject r hty hrt]
  · rcases hty with hty | hty | hty
    · rcases hs' : s.transactions r.tx with _ | st'
      · rw [process_dispute_missing s r hty hs']
      · by_cases hg : st'.client = r.client ∧ st'.dispute_state = DisputeState.None
        · rw [process_dispute_success s r st' hty hs' hg.1 hg.2]
          exact updMap_ne _ _ _ _ fun h => hrt (h ▸ rfl)
        · rw [process_dispute_reject s r st' hty hs' (by tauto)]
    · rcases hs' : s.transactions r.tx with _ | st'
      · rw [process_resolve_missing s r hty hs']
      · by_cases hg : st'.client = r.client ∧ st'.dispute_state = DisputeState.Disputed
        · rw [process_resolve_success s r st' hty hs' hg.1 hg.2]
          exact updMap_ne _ _ _ _ fun h => hrt (h ▸ rfl)
        · rw [process_resolve_reject s r st' hty hs' (by tauto)]
    · rcases hs' : s.transactions r.tx with _ | st'
      · rw [process_chargeback_missing s r hty hs']
      · by_cases hg : st'.client = r.client ∧ st'.dispute_state = DisputeState.Disputed
        · rw [process_chargeback_success s r st' hty hs' hg.1 hg.2]
          exact updMap_ne _ _ _ _ fun h => hrt (h ▸ rfl)
        · rw [process_chargeback_reject s r st' hty hs' (by tauto)]

/-- A concrete engine state holding a charged-back stored transaction, used
to witness C5. -/
def c5State : Engine :=
  ⟨fun k => if k = 0 then some ⟨0, 0, true⟩ else none,
   fun k => if k = 1 then some ⟨0, 50000, DisputeState.ChargedBack⟩ else none⟩

/-- Witness for C5 at a concrete input: a re-dispute of the charged-back
transaction is dropped with no state change. -/
theorem c5_chargeback_terminal_witness :
    Engine.process c5State ⟨TransactionType.Dispute, 0, 1, none⟩ = c5State :=
  (c5_chargeback_terminal c5State 1 ⟨0, 50000, DisputeState.ChargedBack⟩ rfl rfl).1
    ⟨TransactionType.Dispute, 0, 1, none⟩ (Or.inl rfl) rfl

/-! ### C3: dispute followed by resolve restores the balances -/

/-- A concrete engine state whose held balance sits at the i64 maximum, used
to refute the unrestricted form of C3. -/
def c3State : Engine :=
  ⟨fun k => if k = 1 then some ⟨0, I64.MAX, false⟩ else none,
   fun k => if k = 1 then some ⟨1, 1, DisputeState.None⟩ else none⟩

/-- C3 counterexample: with `held` at the i64 maximum, disputing a stored
deposit of amount 1 saturates `held`, and the following resolve leaves
`held = I64.MAX - 1` — the pre-dispute values are not restored exactly. -/
theorem c3_counterexample :
    (acct c3State 1).held = I64.MAX ∧
    (acct (Engine.process (Engine.process c3State ⟨TransactionType.Dispute, 1, 1, none⟩)
        ⟨TransactionType.Resolve, 1, 1, none⟩) 1).held = I64.MAX - 1 := by
  constructor <;>
    · simp only [Engine.process, Engine.dispute, Engine.resolve, I64.MAX_eq, c3State,
        acct, satAdd, satSub, updMap, I64.MIN_eq]
      decide

/-- C3 (amended): dispute followed by resolve on a stored deposit in state
`None` restores `available` and `held` exactly whenever the dispute's
saturating operations do not clamp (the stored amount is nonnegative,
`available - amount` stays above the i64 minimum and `held + amount` below
the i64 maximum, with the fields themselves in i64 range) — at the
representation bounds the round trip is inexact. -/
theorem c3_dispute_resolve_roundtrip (s : Engine) (c t : ℕ) (st : StoredTransaction)
    (hst : s.transactions t = some st) (hc : st.client = c)
    (hd : st.dispute_state = DisputeState.None)
    (h0 : 0 ≤ st.amount)
    (hmin : I64.MIN ≤ (acct s c).available - st.amount)
    (hmax : (acct s c).held + st.amount ≤ I64.MAX)
    (havail : (acct s c).available ≤ I64.MAX)
    (hheld : I64.MIN ≤ (acct s c).held) :
    (acct (Engine.process (Engine.process s ⟨TransactionType.Dispute, c, t, none⟩)
        ⟨TransactionType.Resolve, c, t, none⟩) c).available = (acct s c).available ∧
    (acct (Engine.process (Engine.process s ⟨TransactionType.Dispute, c, t, none⟩)
        ⟨TransactionType.Resolve, c, t, none⟩) c).held = (acct s c).held := by
  rw [I64.MIN_eq] at hmin hheld
  rw [I64.MAX_eq] at hmax havail
  rw [process_dispute_success s ⟨TransactionType.Dispute, c, t, none⟩ st rfl hst hc hd]
  rw [process_resolve_success _ ⟨TransactionType.Resolve, c, t, none⟩
      ({ st with dispute_state := DisputeState.Disputed }) rfl (by simpa using updMap_same _ _ _)
      hc rfl]
  simp only [acct, updMap_same, Option.getD_some]
  rw [acct] at hmin hmax havail hheld
  rw [satSub_eq ((s.accounts c).getD Account.default).available st.amount
      (by rw [I64.MIN_eq]; omega) (by rw [I64.MAX_eq]; omega)]
  rw [satAdd_eq ((s.accounts c).getD Account.default).held st.amount
      (by rw [I64.MIN_eq]; omega) (by rw [I64.MAX_eq]; omega)]
  constructor
  · rw [satAdd_eq _ _ (by rw [I64.MIN_eq]; omega) (by rw [I64.MAX_eq]; omega)]
    ring
  · rw [satSub_eq _ _ (by rw [I64.MIN_eq]; omega) (by rw [I64.MAX_eq]; omega)]
    ring

/-- A concrete engine state with an undisputed stored deposit, used to
witness C3. -/
def c3WState : Engine :=
  ⟨fun k => if k = 1 then some ⟨100000, 0, false⟩ else none,
   fun k => if k = 4 then some ⟨1, 60000, DisputeState.None⟩ else none⟩

/-- Witness for C3 at a concrete input. -/
theorem c3_dispute_resolve_roundtrip_witness :
    (acct (Engine.process (Engine.process c3WState ⟨TransactionType.Dispute, 1, 4, none⟩)
        ⟨TransactionType.Resolve, 1, 4, none⟩) 1).available = (acct c3WState 1).available ∧
    (acct (Engine.process (Engine.process c3WState ⟨TransactionType.Dispute, 1, 4, none⟩)
        ⟨TransactionType.Resolve, 1, 4, none⟩) 1).held = (acct c3WState 1).held :=
  c3_dispute_resolve_roundtrip c3WState 1 4 ⟨1, 60000, DisputeState.None⟩ rfl rfl rfl
    (by decide) (by decide) (by decide) (by decide) (by decide)

/-! ### C8: the contract of to_fixed -/

/-- C8: `to_fixed` multiplies the decimal by 10,000 and truncates toward zero
(t-division of the scaled mantissa), never increasing the magnitude (so extra
fractional digits are dropped, not rounded up), and any scaled value outside
the i64 range maps to 0 — the function is total and never panics. -/
theorem c8_to_fixed_contract (d : Dec) :
    (to_fixed d =
      if I64.MIN ≤ (d.mantissa * 10000).tdiv ((10 : Int) ^ d.scale) ∧
          (d.mantissa * 10000).tdiv ((10 : Int) ^ d.scale) ≤ I64.MAX
        then (d.mantissa * 10000).tdiv ((10 : Int) ^ d.scale) else 0) ∧
    |(decTrunc (d.val * (SCALE : ℚ)) : ℚ)| ≤ |d.val * (SCALE : ℚ)| ∧
    |(to_fixed d : ℚ)| ≤ |d.val * (SCALE : ℚ)| := by
  have habs : |(decTrunc (d.val * (SCALE : ℚ)) : ℚ)| ≤ |d.val * (SCALE : ℚ)| := by
    set q : ℚ := d.val * (SCALE : ℚ) with hq
    rcases le_or_lt 0 q with hq0 | hq0
    · rw [decTrunc, if_pos hq0, abs_of_nonneg hq0,
        abs_of_nonneg (by exact_mod_cast Int.floor_nonneg.2 hq0)]
      exact Int.floor_le q
    · have hc : (⌈q⌉ : ℤ) ≤ 0 := Int.ceil_le.2 (by exact_mod_cast hq0.le)
      rw [decTrunc, if_neg (not_le.2 hq0), abs_of_neg hq0,
        abs_of_nonpos (by exact_mod_cast hc)]
      exact neg_le_neg (Int.le_ceil q)
  refine ⟨to_fixed_eq d, habs, ?_⟩
  rw [to_fixed, toI64]
  split
  · simpa using habs
  · simp only [Option.getD_none, Int.cast_zero, abs_zero]
    exact abs_nonneg _

/-! ### C9: the fixed-point formatter -/

/-- The formatter as the spec describes it: `[-]whole.ffff` where `whole` and
`ffff` come from quotient and remainder of the true absolute value by 10,000. -/
def formatSpec (v : Int) : String :=
  if v < 0 then
    "-" ++ natToString (v.natAbs / 10000) ++ "." ++ pad4 (natToString (v.natAbs % 10000))
  else
    natToString (v.natAbs / 10000) ++ "." ++ pad4 (natToString (v.natAbs % 10000))

/-- Decimal rendering of a natural number below 10000 takes at most 4
characters. -/
theorem natToString_length_le (n : ℕ) (h : n < 10000) : (natToString n).length ≤ 4 := by
  rw [natToString]
  split
  · decide
  · next hn =>
    rw [String.length_mk, List.length_map, List.length_reverse,
      Nat.digits_len 10 n (by norm_num) hn]
    have hlog : Nat.log 10 n < 4 :=
      Nat.log_lt_of_lt_pow hn (by norm_num at h ⊢; omega)
    omega

/-- Zero padding a short string to width 4 yields length exactly 4. -/
theorem pad4_length (s : String) (h : s.length ≤ 4) : (pad4 s).length = 4 := by
  rw [pad4, String.length_append, String.length_mk, List.length_replicate]
  omega

/-- For any i64 value the `as u64` cast of `wrapping_abs` is the true
absolute value (at `i64::MIN` the wrap produces exactly `2^63`). -/
theorem natAbs_wrap_eq (v : Int) (hmin : I64.MIN ≤ v) (hmax : v ≤ I64.MAX) :
    v.natAbs % 2 ^ 64 = v.natAbs := by
  rw [I64.MIN_eq] at hmin
  rw [I64.MAX_eq] at hmax
  have h64 : (2 : ℕ) ^ 64 = 18446744073709551616 := by norm_num
  rw [h64]
  omega

/-- C9: for every i64 amount the formatter produces `[-]whole.ffff`, where
`whole` and `ffff` are quotient and remainder of the absolute value by
10,000 computed on the unsigned magnitude (so `i64::MIN` is handled without
overflow), and the fractional part has exactly 4 digits. -/
theorem c9_format_fixed (v : Int) (hmin : I64.MIN ≤ v) (hmax : v ≤ I64.MAX) :
    format_fixed v = formatSpec v ∧
    (pad4 (natToString (v.natAbs % 10000))).length = 4 := by
  constructor
  · rw [format_fixed, formatSpec, natAbs_wrap_eq v hmin hmax]
  · exact pad4_length _ (natToString_length_le _ (Nat.mod_lt _ (by norm_num)))

/-- Witness for C9 at the extreme negative input. -/
theorem c9_format_fixed_witness :
    format_fixed (-(2 ^ 63)) = formatSpec (-(2 ^ 63)) ∧
    (pad4 (natToString ((-(2 ^ 63) : Int).natAbs % 10000))).length = 4 :=
  c9_format_fixed (-(2 ^ 63)) (by rw [I64.MIN_eq]; norm_num) (by rw [I64.MAX_eq]; norm_num)

/-! ### C4: conservation of the account total -/

/-- The signed contribution of one record to a client's balance sheet:
`+to_fixed amount` for an accepted deposit, `-to_fixed amount` for an
accepted withdrawal, `0` otherwise (the acceptance conditions are read off
the handlers). -/
def stepDelta (c : ℕ) (s : Engine) (r : Transaction) : Int :=
  if r.client = c then
    match r.tx_type, r.amount with
    | TransactionType.Deposit, some d =>
        if 0 < d.val ∧ (acct s r.client).locked = false then to_fixed d else 0
    | TransactionType.Withdrawal, some d =>
        if 0 < d.val ∧ (acct s r.client).locked = false ∧
            to_fixed d ≤ (acct s r.client).available then -(to_fixed d) else 0
    | _, _ => 0
  else 0

/-- Sum of accepted deposit amounts minus accepted withdrawal amounts for a
client over an input sequence, tracking the engine state step by step. -/
def clientDelta (c : ℕ) : Engine → List Transaction → Int
  | _, [] => 0
  | s, r :: rs => stepDelta c s r + clientDelta c (Engine.process s r) rs

/-- Does this record perform a successful chargeback against client `c`'s
account? -/
def chargebackHit (c : ℕ) (s : Engine) (r : Transaction) : Bool :=
  match r.tx_type, s.transactions r.tx with
  | TransactionType.Chargeback, some st =>
      st.client == r.client && r.client == c && st.dispute_state == DisputeState.Disputed
  | _, _ => false

/-- No successful chargeback hits client `c` anywhere along the run. -/
def noChargebacks (c : ℕ) : Engine → List Transaction → Prop
  | _, [] => True
  | s, r :: rs => chargebackHit c s r = false ∧ noChargebacks c (Engine.process s r) rs

/-- The (state-independent) fixed-point amount a deposit record could add for
client `c`; an upper bound for the accepted amount. -/
def depContrib (c : ℕ) (r : Transaction) : Int :=
  match r.tx_type, r.amount with
  | TransactionType.Deposit, some d => if r.client = c ∧ 0 < d.val then to_fixed d else 0
  | _, _ => 0

/-- Total fixed-point amount of all positive deposit records for client `c`
in the input sequence. -/
def depPotential (c : ℕ) (rs : List Transaction) : Int := (rs.map (depContrib c)).sum

/-- The amount contributed by stored transaction `t` to client `c`'s
currently-disputed total. -/
def dTerm (c : ℕ) (s : Engine) (t : ℕ) : Int :=
  match s.transactions t with
  | some st => if st.client = c ∧ st.dispute_state = DisputeState.Disputed then st.amount else 0
  | none => 0

/-- The amount contributed by stored transaction `t` to client `c`'s
undisputed (`None`-state) stored total. -/
def nTerm (c : ℕ) (s : Engine) (t : ℕ) : Int :=
  match s.transactions t with
  | some st => if st.client = c ∧ st.dispute_state = DisputeState.None then st.amount else 0
  | none => 0

/-- Sum of client `c`'s currently-disputed stored amounts over key set `T`. -/
def Dsum (c : ℕ) (T : Finset ℕ) (s : Engine) : Int := ∑ t ∈ T, dTerm c s t

/-- Sum of client `c`'s `None`-state stored amounts over key set `T`. -/
def Nsum (c : ℕ) (T : Finset ℕ) (s : Engine) : Int := ∑ t ∈ T, nTerm c s t

/-- The conservation invariant for client `c`: `T` covers all stored keys,
amounts are nonnegative, the account is unlocked with nonnegative `held` and
total, `held` dominates the disputed sum, and `D` (accepted deposits minus
nothing yet withdrawn-counted, i.e. an accepted-deposit budget) dominates
`held + Nsum` and the total. -/
structure Inv (c : ℕ) (T : Finset ℕ) (D : Int) (s : Engine) : Prop where
  hT : ∀ t, t ∉ T → s.transactions t = none
  hamt : ∀ t st, s.transactions t = some st → 0 ≤ st.amount
  hheld : 0 ≤ (acct s c).held
  htot : 0 ≤ (acct s c).available + (acct s c).held
  hlock : (acct s c).locked = false
  hDsum : Dsum c T s ≤ (acct s c).held
  hNsum : (acct s c).held + Nsum c T s ≤ D
  htotD : (acct s c).available + (acct s c).held ≤ D
  hD : 0 ≤ D

theorem dTerm_nonneg (c : ℕ) (s : Engine) (t : ℕ)
    (hamt : ∀ t st, s.transactions t = some st → 0 ≤ st.amount) :
    0 ≤ dTerm c s t := by
  rw [dTerm]
  rcases hst : s.transactions t with _ | st
  · exact le_refl 0
  · dsimp only
    split
    · exact hamt t st hst
    · exact le_refl 0

theorem nTerm_nonneg (c : ℕ) (s : Engine) (t : ℕ)
    (hamt : ∀ t st, s.transactions t = some st → 0 ≤ st.amount) :
    0 ≤ nTerm c s t := by
  rw [nTerm]
  rcases hst : s.transactions t with _ | st
  · exact le_refl 0
  · dsimp only
    split
    · exact hamt t st hst
    · exact le_refl 0

theorem dTerm_congr (c : ℕ) (s s' : Engine) (t : ℕ)
    (h : s'.transactions t = s.transactions t) : dTerm c s' t = dTerm c s t := by
  rw [dTerm, dTerm, h]

theorem nTerm_congr (c : ℕ) (s s' : Engine) (t : ℕ)
    (h : s'.transactions t = s.transactions t) : nTerm c s' t = nTerm c s t := by
  rw [nTerm, nTerm, h]

theorem Nsum_nonneg (c : ℕ) (T : Finset ℕ) (s : Engine)
    (hamt : ∀ t st, s.transactions t = some st → 0 ≤ st.amount) :
    0 ≤ Nsum c T s :=
  Finset.sum_nonneg fun t _ => nTerm_nonneg c s t hamt

theorem Dsum_nonneg (c : ℕ) (T : Finset ℕ) (s : Engine)
    (hamt : ∀ t st, s.transactions t = some st → 0 ≤ st.amount) :
    0 ≤ Dsum c T s :=
  Finset.sum_nonneg fun t _ => dTerm_nonneg c s t hamt

/-- Extending the key set by a key that is either already covered or not
stored does not change a stored-amount sum. -/
theorem sum_insert_covered (f : ℕ → Int) (T : Finset ℕ) (t₀ : ℕ)
    (h : t₀ ∉ T → f t₀ = 0) : ∑ t ∈ insert t₀ T, f t = ∑ t ∈ T, f t := by
  by_cases hmem : t₀ ∈ T
  · rw [Finset.insert_eq_self.2 hmem]
  · rw [Finset.sum_insert hmem, h hmem, zero_add]

theorem Dsum_insert (c : ℕ) (T : Finset ℕ) (s : Engine) (t₀ : ℕ)
    (hT : ∀ t, t ∉ T → s.transactions t = none) :
    Dsum c (insert t₀ T) s = Dsum c T s :=
  sum_insert_covered _ T t₀ fun hmem => by rw [dTerm, hT t₀ hmem]

theorem Nsum_insert (c : ℕ) (T : Finset ℕ) (s : Engine) (t₀ : ℕ)
    (hT : ∀ t, t ∉ T → s.transactions t = none) :
    Nsum c (insert t₀ T) s = Nsum c T s :=
  sum_insert_covered _ T t₀ fun hmem => by rw [nTerm, hT t₀ hmem]

/-- Rewriting a sum when exactly one term may have changed. -/
theorem sum_shift (T : Finset ℕ) (f g : ℕ → Int) (t₀ : ℕ) (ht : t₀ ∈ T)
    (h : ∀ t, t ≠ t₀ → g t = f t) :
    ∑ t ∈ T, g t = (∑ t ∈ T, f t) - f t₀ + g t₀ := by
  rw [← Finset.add_sum_erase T g ht, ← Finset.add_sum_erase T f ht]
  have he : ∑ t ∈ T.erase t₀, g t = ∑ t ∈ T.erase t₀, f t :=
    Finset.sum_congr rfl fun t ht' => h t (Finset.ne_of_mem_erase ht')
  rw [he]
  ring

/-- Invariant preservation for any step that leaves client `c`'s account
values unchanged and either leaves the stored map unchanged or rewrites the
single entry `t₀` with another client's record. -/
theorem Inv_preserved (c : ℕ) (T : Finset ℕ) (D D' : Int) (s s' : Engine) (t₀ : ℕ)
    (hInv : Inv c T D s) (hDD : D ≤ D')
    (hacct : acct s' c = acct s c)
    (htx : ∀ t, t ≠ t₀ → s'.transactions t = s.transactions t)
    (ht0 : s'.transactions t₀ = s.transactions t₀ ∨
      ∃ st', s'.transactions t₀ = some st' ∧ st'.client ≠ c ∧ 0 ≤ st'.amount) :
    Inv c (insert t₀ T) D' s' := by
  obtain ⟨hT, hamt, hheld, htot, hlock, hDsum, hNsum, htotD, hD⟩ := hInv
  have hamt' : ∀ t st, s'.transactions t = some st → 0 ≤ st.amount := by
    intro t st h
    by_cases ht : t = t₀
    · subst ht
      rcases ht0 with h0 | ⟨st', h0, _, h0a⟩
      · rw [h0] at h
        exact hamt _ _ h
      · rw [h0] at h
        injection h with h
        exact h ▸ h0a
    · rw [htx t ht] at h
      exact hamt _ _ h
  have hDle : Dsum c (insert t₀ T) s' ≤ Dsum c (insert t₀ T) s := by
    refine Finset.sum_le_sum ?_
    intro t _
    by_cases ht : t = t₀
    · subst ht
      rcases ht0 with h0 | ⟨st', h0, h0c, _⟩
      · exact le_of_eq (dTerm_congr c s s' t h0)
      · rw [dTerm, h0]
        dsimp only
        rw [if_neg (by tauto)]
        exact dTerm_nonneg c s t hamt
    · exact le_of_eq (dTerm_congr c s s' t (htx t ht))
  have hNle : Nsum c (insert t₀ T) s' ≤ Nsum c (insert t₀ T) s := by
    refine Finset.sum_le_sum ?_
    intro t _
    by_cases ht : t = t₀
    · subst ht
      rcases ht0 with h0 | ⟨st', h0, h0c, _⟩
      · exact le_of_eq (nTerm_congr c s s' t h0)
      · rw [nTerm, h0]
        dsimp only
        rw [if_neg (by tauto)]
        exact nTerm_nonneg c s t hamt
    · exact le_of_eq (nTerm_congr c s s' t (htx t ht))
  refine ⟨?_, hamt', ?_, ?_, ?_, ?_, ?_, ?_, ?_⟩
  · intro t hmem
    rw [Finset.mem_insert] at hmem
    push_neg at hmem
    rw [htx t hmem.1]
    exact hT t hmem.2
  · rw [hacct]
    exact hheld
  · rw [hacct]
    exact htot
  · rw [hacct]
    exact hlock
  · rw [hacct]
    calc Dsum c (insert t₀ T) s' ≤ Dsum c (insert t₀ T) s := hDle
    _ = Dsum c T s := Dsum_insert c T s t₀ hT
    _ ≤ (acct s c).held := hDsum
  · rw [hacct]
    have h1 : Nsum c (insert t₀ T) s' ≤ Nsum c T s :=
      le_of_le_of_eq hNle (Nsum_insert c T s t₀ hT)
    omega
  · rw [hacct]
    omega
  · omega

theorem acct_mk_upd (m : ℕ → Option Account) (tx : ℕ → Option StoredTransaction)
    (c : ℕ) (A : Account) : acct ⟨updMap m c A, tx⟩ c = A := by
  rw [acct]
  show (updMap m c A c).getD Account.default = A
  rw [updMap_same]
  rfl

theorem Dsum_update (c : ℕ) (T' : Finset ℕ) (s : Engine) (m : ℕ → Option Account)
    (t₀ : ℕ) (v : StoredTransaction) (hmem : t₀ ∈ T') :
    Dsum c T' ⟨m, updMap s.transactions t₀ v⟩ =
      Dsum c T' s - dTerm c s t₀ +
        (if v.client = c ∧ v.dispute_state = DisputeState.Disputed then v.amount else 0) := by
  rw [Dsum, Dsum, sum_shift T' (dTerm c s) (dTerm c ⟨m, updMap s.transactions t₀ v⟩) t₀ hmem
    (fun t ht => dTerm_congr c s _ t (updMap_ne _ _ _ _ ht))]
  congr 1
  rw [dTerm]
  show (match updMap s.transactions t₀ v t₀ with
    | some st => if st.client = c ∧ st.dispute_state = DisputeState.Disputed then st.amount else 0
    | none => 0) = _
  rw [updMap_same]

theorem Nsum_update (c : ℕ) (T' : Finset ℕ) (s : Engine) (m : ℕ → Option Account)
    (t₀ : ℕ) (v : StoredTransaction) (hmem : t₀ ∈ T') :
    Nsum c T' ⟨m, updMap s.transactions t₀ v⟩ =
      Nsum c T' s - nTerm c s t₀ +
        (if v.client = c ∧ v.dispute_state = DisputeState.None then v.amount else 0) := by
  rw [Nsum, Nsum, sum_shift T' (nTerm c s) (nTerm c ⟨m, updMap s.transactions t₀ v⟩) t₀ hmem
    (fun t ht => nTerm_congr c s _ t (updMap_ne _ _ _ _ ht))]
  congr 1
  rw [nTerm]
  show (match updMap s.transactions t₀ v t₀ with
    | some st => if st.client = c ∧ st.dispute_state = DisputeState.None then st.amount else 0
    | none => 0) = _
  rw [updMap_same]

theorem Dsum_same (c : ℕ) (T : Finset ℕ) (s s' : Engine)
    (h : ∀ t, s'.transactions t = s.transactions t) : Dsum c T s' = Dsum c T s :=
  Finset.sum_congr rfl fun t _ => dTerm_congr c s s' t (h t)

theorem Nsum_same (c : ℕ) (T : Finset ℕ) (s s' : Engine)
    (h : ∀ t, s'.transactions t = s.transactions t) : Nsum c T s' = Nsum c T s :=
  Finset.sum_congr rfl fun t _ => nTerm_congr c s s' t (h t)

theorem depContrib_nonneg (c : ℕ) (r : Transaction) : 0 ≤ depContrib c r := by
  rw [depContrib]
  split
  · split
    · next h => exact to_fixed_nonneg _ h.2
    · exact le_refl 0
  · exact le_refl 0

theorem depPotential_nonneg (c : ℕ) (rs : List Transaction) : 0 ≤ depPotential c rs := by
  rw [depPotential]
  refine List.sum_nonneg ?_
  intro x hx
  rcases List.mem_map.1 hx with ⟨r, _, rfl⟩
  exact depContrib_nonneg c r

theorem depPotential_cons (c : ℕ) (r : Transaction) (rs : List Transaction) :
    depPotential c (r :: rs) = depContrib c r + depPotential c rs := by
  rw [depPotential, depPotential, List.map_cons, List.sum_cons]

theorem stepDelta_dispute_like (c : ℕ) (s : Engine) (r : Transaction)
    (h : r.tx_type = TransactionType.Dispute ∨ r.tx_type = TransactionType.Resolve ∨
      r.tx_type = TransactionType.Chargeback) : stepDelta c s r = 0 := by
  rw [stepDelta]
  split
  · rcases h with h | h | h <;> simp only [h]
  · rfl

/-- One step of the conservation argument: processing any record that is not
a successful chargeback against client `c` preserves the invariant (with the
key set extended by the record's transaction id and the deposit budget by its
potential deposit amount) and changes the client's total by exactly
`stepDelta`. -/
theorem conservation_step (c : ℕ) (T : Finset ℕ) (D : Int) (s : Engine) (r : Transaction)
    (hInv : Inv c T D s)
    (hbound : D + depContrib c r ≤ I64.MAX)
    (hnc : chargebackHit c s r = false) :
    Inv c (insert r.tx T) (D + depContrib c r) (Engine.process s r) ∧
    (acct (Engine.process s r) c).available + (acct (Engine.process s r) c).held =
      ((acct s c).available + (acct s c).held) + stepDelta c s r := by
  have hdc : 0 ≤ depContrib c r := depContrib_nonneg c r
  by_cases hrc : r.client = c
  case neg =>
    have hacct : acct (Engine.process s r) c = acct s c := by
      rw [acct, acct, process_accounts_frame s r c fun h => hrc h.symm]
    refine ⟨Inv_preserved c T D _ s _ r.tx hInv (by omega) hacct
      (fun t ht => process_transactions_frame s r t ht) ?_, ?_⟩
    · rcases process_stored_new s r r.tx hInv.hamt with h | ⟨st', h1, h2, h3⟩
      · exact Or.inl h
      · exact Or.inr ⟨st', h1, by rw [h2]; exact fun hh => hrc hh, h3⟩
    · rw [hacct, stepDelta, if_neg hrc, add_zero]
  case pos =>
  subst hrc
  have hT := hInv.hT
  have hamt := hInv.hamt
  have hheld := hInv.hheld
  have htot := hInv.htot
  have hlock := hInv.hlock
  have hDsumI := hInv.hDsum
  have hNsumI := hInv.hNsum
  have htotD := hInv.htotD
  have hD := hInv.hD
  have hN0 : 0 ≤ Nsum r.client T s := Nsum_nonneg _ T s hamt
  have hDsum0 : 0 ≤ Dsum r.client T s := Dsum_nonneg _ T s hamt
  rw [I64.MAX_eq] at hbound
  have hnoop : Engine.process s r = s →
      Inv r.client (insert r.tx T) (D + depContrib r.client r) (Engine.process s r) := by
    intro h
    rw [h]
    exact Inv_preserved _ T D _ s s r.tx hInv (by omega) rfl (fun _ _ => rfl) (Or.inl rfl)
  cases hty : r.tx_type
  · -- Deposit
    rcases ha : r.amount with _ | d
    · have h := process_deposit_none s r hty ha
      refine ⟨hnoop h, ?_⟩
      rw [h, stepDelta, if_pos rfl]
      simp only [hty, ha]
      rw [add_zero]
    · by_cases hd : d.val ≤ 0
      · have h := process_deposit_nonpos s r d hty ha hd
        refine ⟨hnoop h, ?_⟩
        rw [h, stepDelta, if_pos rfl]
        simp only [hty, ha]
        rw [if_neg (by rw [not_and_or]; exact Or.inl (not_lt.2 hd)), add_zero]
      · -- accepted deposit
        have hdpos : 0 < d.val := not_le.1 hd
        have hfx0 : 0 ≤ to_fixed d := to_fixed_nonneg d hdpos
        have hcontrib : depContrib r.client r = to_fixed d := by
          simp [depContrib, hty, ha, hdpos]
        rw [hcontrib] at hbound ⊢
        have hsat : satAdd (acct s r.client).available (to_fixed d) =
            (acct s r.client).available + to_fixed d := by
          apply satAdd_eq
          · rw [I64.MIN_eq]
            omega
          · rw [I64.MAX_eq]
            omega
        rw [process_deposit_success s r d hty ha hd hlock]
        constructor
        · refine ⟨?_, ?_, ?_, ?_, ?_, ?_, ?_, ?_, ?_⟩
          · intro t hmem
            rw [Finset.mem_insert] at hmem
            push_neg at hmem
            show updMap s.transactions r.tx _ t = none
            rw [updMap_ne _ _ _ _ hmem.1]
            exact hT t hmem.2
          · intro t st h
            dsimp only at h
            by_cases ht : t = r.tx
            · subst ht
              rw [updMap_same] at h
              injection h with h
              rw [← h]
              exact hfx0
            · rw [updMap_ne _ _ _ _ ht] at h
              exact hamt _ _ h
          · rw [acct_mk_upd]
            exact hheld
          · rw [acct_mk_upd]
            dsimp only
            rw [hsat]
            omega
          · rw [acct_mk_upd]
            exact hlock
          · rw [acct_mk_upd]
            rw [Dsum_update _ _ s _ r.tx _ (Finset.mem_insert_self _ _),
              Dsum_insert _ T s r.tx hT]
            dsimp only
            rw [if_neg (fun h => DisputeState.noConfusion h.2)]
            have := dTerm_nonneg r.client s r.tx hamt
            omega
          · rw [acct_mk_upd]
            rw [Nsum_update _ _ s _ r.tx _ (Finset.mem_insert_self _ _),
              Nsum_insert _ T s r.tx hT]
            dsimp only
            rw [if_pos ⟨rfl, rfl⟩]
            have := nTerm_nonneg r.client s r.tx hamt
            omega
          · rw [acct_mk_upd]
            dsimp only
            rw [hsat]
            omega
          · omega
        · rw [acct_mk_upd]
          dsimp only
          rw [hsat, stepDelta, if_pos rfl]
          simp only [hty, ha]
          rw [if_pos ⟨hdpos, hlock⟩]
          ring
  · -- Withdrawal
    rcases ha : r.amount with _ | d
    · have h := process_withdrawal_none s r hty ha
      refine ⟨hnoop h, ?_⟩
      rw [h, stepDelta, if_pos rfl]
      simp only [hty, ha]
      rw [add_zero]
    · by_cases hd : d.val ≤ 0
      · have h := process_withdrawal_nonpos s r d hty ha hd
        refine ⟨hnoop h, ?_⟩
        rw [h, stepDelta, if_pos rfl]
        simp only [hty, ha]
        rw [if_neg (by rw [not_and_or]; exact Or.inl (not_lt.2 hd)), add_zero]
      · have hdpos : 0 < d.val := not_le.1 hd
        have hfx0 : 0 ≤ to_fixed d := to_fixed_nonneg d hdpos
        have hcontrib : depContrib r.client r = 0 := by
          rw [depContrib]
          simp only [hty, ha]
        rw [hcontrib] at hbound ⊢
        rw [add_zero] at hbound ⊢
        by_cases hin : to_fixed d ≤ (acct s r.client).available
        · -- accepted withdrawal
          have hsat : satSub (acct s r.client).available (to_fixed d) =
              (acct s r.client).available - to_fixed d := by
            apply satSub_eq
            · rw [I64.MIN_eq]
              omega
            · rw [I64.MAX_eq]
              omega
          rw [process_withdrawal_success s r d hty ha hd hlock hin]
          constructor
          · refine ⟨?_, ?_, ?_, ?_, ?_, ?_, ?_, ?_, ?_⟩
            · intro t hmem
              rw [Finset.mem_insert] at hmem
              push_neg at hmem
              exact hT t hmem.2
            · intro t st h
              exact hamt _ _ h
            · rw [acct_mk_upd]
              exact hheld
            · rw [acct_mk_upd]
              dsimp only
              rw [hsat]
              omega
            · rw [acct_mk_upd]
              exact hlock
            · rw [acct_mk_upd]
              rw [show Dsum r.client (insert r.tx T)
                  ⟨updMap s.accounts r.client _, s.transactions⟩ =
                  Dsum r.client (insert r.tx T) s from Dsum_same _ _ _ _ fun _ => rfl,
                Dsum_insert _ T s r.tx hT]
              exact hDsumI
            · rw [acct_mk_upd]
              rw [show Nsum r.client (insert r.tx T)
                  ⟨updMap s.accounts r.client _, s.transactions⟩ =
                  Nsum r.client (insert r.tx T) s from Nsum_same _ _ _ _ fun _ => rfl,
                Nsum_insert _ T s r.tx hT]
              exact hNsumI
            · rw [acct_mk_upd]
              dsimp only
              rw [hsat]
              omega
            · omega
          · rw [acct_mk_upd]
            dsimp only
            rw [hsat, stepDelta, if_pos rfl]
            simp only [hty, ha]
            rw [if_pos ⟨hdpos, hlock, hin⟩]
            ring
        · -- rejected: insufficient funds
          rw [process_withdrawal_insufficient s r d hty ha hd hlock (not_le.1 hin)]
          have hacct : acct ⟨updMap s.accounts r.client (acct s r.client), s.transactions⟩
              r.client = acct s r.client := acct_mk_upd _ _ _ _
          refine ⟨Inv_preserved _ T D _ s _ r.tx hInv (le_refl D) hacct (fun _ _ => rfl)
            (Or.inl rfl), ?_⟩
          rw [hacct, stepDelta, if_pos rfl]
          simp only [hty, ha]
          rw [if_neg (fun h => hin h.2.2), add_zero]
  · -- Dispute
    rcases hst : s.transactions r.tx with _ | st
    · have h := process_dispute_missing s r hty hst
      refine ⟨hnoop h, ?_⟩
      rw [h, stepDelta_dispute_like _ _ _ (Or.inl hty), add_zero]
    · by_cases hg : st.client = r.client ∧ st.dispute_state = DisputeState.None
      · obtain ⟨hgc, hgs⟩ := hg
        have hmemT : r.tx ∈ T := by
          by_contra hmem
          rw [hT r.tx hmem] at hst
          cases hst
        have hamt0 : 0 ≤ st.amount := hamt _ _ hst
        have hnT : nTerm r.client s r.tx = st.amount := by
          rw [nTerm, hst]
          dsimp only
          rw [if_pos ⟨hgc, hgs⟩]
        have hdT : dTerm r.client s r.tx = 0 := by
          rw [dTerm, hst]
          dsimp only
          rw [if_neg fun h => DisputeState.noConfusion (hgs ▸ h.2)]
        have hNle : st.amount ≤ Nsum r.client T s := by
          rw [← hnT]
          exact Finset.single_le_sum (fun t _ => nTerm_nonneg _ s t hamt) hmemT
        have hcontrib : depContrib r.client r = 0 := by
          rw [depContrib]
          simp only [hty]
        rw [hcontrib] at hbound ⊢
        rw [add_zero] at hbound ⊢
        have hsatS : satSub (acct s r.client).available st.amount =
            (acct s r.client).available - st.amount := by
          apply satSub_eq
          · rw [I64.MIN_eq]
            omega
          · rw [I64.MAX_eq]
            omega
        have hsatA : satAdd (acct s r.client).held st.amount =
            (acct s r.client).held + st.amount := by
          apply satAdd_eq
          · rw [I64.MIN_eq]
            omega
          · rw [I64.MAX_eq]
            omega
        rw [process_dispute_success s r st hty hst hgc hgs]
        constructor
        · refine ⟨?_, ?_, ?_, ?_, ?_, ?_, ?_, ?_, ?_⟩
          · intro t hmem
            rw [Finset.mem_insert] at hmem
            push_neg at hmem
            show updMap s.transactions r.tx _ t = none
            rw [updMap_ne _ _ _ _ hmem.1]
            exact hT t hmem.2
          · intro t st' h
            dsimp only at h
            by_cases ht : t = r.tx
            · subst ht
              rw [updMap_same] at h
              injection h with h
              rw [← h]
              exact hamt0
            · rw [updMap_ne _ _ _ _ ht] at h
              exact hamt _ _ h
          · rw [acct_mk_upd]
            dsimp only
            rw [hsatA]
            omega
          · rw [acct_mk_upd]
            dsimp only
            rw [hsatA, hsatS]
            omega
          · rw [acct_mk_upd]
            exact hlock
          · rw [acct_mk_upd]
            rw [Dsum_update _ _ s _ r.tx _ (Finset.mem_insert_self _ _),
              Dsum_insert _ T s r.tx hT]
            dsimp only
            rw [if_pos ⟨hgc, rfl⟩, hdT, hsatA]
            omega
          · rw [acct_mk_upd]
            rw [Nsum_update _ _ s _ r.tx _ (Finset.mem_insert_self _ _),
              Nsum_insert _ T s r.tx hT]
            dsimp only
            rw [if_neg fun h => DisputeState.noConfusion h.2, hnT, hsatA]
            omega
          · rw [acct_mk_upd]
            dsimp only
            rw [hsatA, hsatS]
            omega
          · omega
        · rw [acct_mk_upd]
          dsimp only
          rw [hsatA, hsatS, stepDelta_dispute_like _ _ _ (Or.inl hty)]
          ring
      · have h := process_dispute_reject s r st hty hst (by tauto)
        refine ⟨hnoop h, ?_⟩
        rw [h, stepDelta_dispute_like _ _ _ (Or.inl hty), add_zero]
  · -- Resolve
    rcases hst : s.transactions r.tx with _ | st
    · have h := process_resolve_missing s r hty hst
      refine ⟨hnoop h, ?_⟩
      rw [h, stepDelta_dispute_like _ _ _ (Or.inr (Or.inl hty)), add_zero]
    · by_cases hg : st.client = r.client ∧ st.dispute_state = DisputeState.Disputed
      · obtain ⟨hgc, hgs⟩ := hg
        have hmemT : r.tx ∈ T := by
          by_contra hmem
          rw [hT r.tx hmem] at hst
          cases hst
        have hamt0 : 0 ≤ st.amount := hamt _ _ hst
        have hdT : dTerm r.client s r.tx = st.amount := by
          rw [dTerm, hst]
          dsimp only
          rw [if_pos ⟨hgc, hgs⟩]
        have hnT : nTerm r.client s r.tx = 0 := by
          rw [nTerm, hst]
          dsimp only
          rw [if_neg fun h => DisputeState.noConfusion (hgs ▸ h.2)]
        have hDle : st.amount ≤ Dsum r.client T s := by
          rw [← hdT]
          exact Finset.single_le_sum (fun t _ => dTerm_nonneg _ s t hamt) hmemT
        have hcontrib : depContrib r.client r = 0 := by
          rw [depContrib]
          simp only [hty]
        rw [hcontrib] at hbound ⊢
        rw [add_zero] at hbound ⊢
        have hsatS : satSub (acct s r.client).held st.amount =
            (acct s r.client).held - st.amount := by
          apply satSub_eq
          · rw [I64.MIN_eq]
            omega
          · rw [I64.MAX_eq]
            omega
        have hsatA : satAdd (acct s r.client).available st.amount =
            (acct s r.client).available + st.amount := by
          apply satAdd_eq
          · rw [I64.MIN_eq]
            omega
          · rw [I64.MAX_eq]
            omega
        rw [process_resolve_success s r st hty hst hgc hgs]
        constructor
        · refine ⟨?_, ?_, ?_, ?_, ?_, ?_, ?_, ?_, ?_⟩
          · intro t hmem
            rw [Finset.mem_insert] at hmem
            push_neg at hmem
            show updMap s.transactions r.tx _ t = none
            rw [updMap_ne _ _ _ _ hmem.1]
            exact hT t hmem.2
          · intro t st' h
            dsimp only at h
            by_cases ht : t = r.tx
            · subst ht
              rw [updMap_same] at h
              injection h with h
              rw [← h]
              exact hamt0
            · rw [updMap_ne _ _ _ _ ht] at h
              exact hamt _ _ h
          · rw [acct_mk_upd]
            dsimp only
            rw [hsatS]
            omega
          · rw [acct_mk_upd]
            dsimp only
            rw [hsatA, hsatS]
            omega
          · rw [acct_mk_upd]
            exact hlock
          · rw [acct_mk_upd]
            rw [Dsum_update _ _ s _ r.tx _ (Finset.mem_insert_self _ _),
              Dsum_insert _ T s r.tx hT]
            dsimp only
            rw [if_neg fun h => DisputeState.noConfusion h.2, hdT, hsatS]
            omega
          · rw [acct_mk_upd]
            rw [Nsum_update _ _ s _ r.tx _ (Finset.mem_insert_self _ _),
              Nsum_insert _ T s r.tx hT]
            dsimp only
            rw [if_pos ⟨hgc, rfl⟩, hnT, hsatS]
            omega
          · rw [acct_mk_upd]
            dsimp only
            rw [hsatA, hsatS]
            omega
          · omega
        · rw [acct_mk_upd]
          dsimp only
          rw [hsatA, hsatS, stepDelta_dispute_like _ _ _ (Or.inr (Or.inl hty))]
          ring
      · have h := process_resolve_reject s r st hty hst (by tauto)
        refine ⟨hnoop h, ?_⟩
        rw [h, stepDelta_dispute_like _ _ _ (Or.inr (Or.inl hty)), add_zero]
  · -- Chargeback
    rcases hst : s.transactions r.tx with _ | st
    · have h := process_chargeback_missing s r hty hst
      refine ⟨hnoop h, ?_⟩
      rw [h, stepDelta_dispute_like _ _ _ (Or.inr (Or.inr hty)), add_zero]
    · have hrej : st.client ≠ r.client ∨ st.dispute_state ≠ DisputeState.Disputed := by
        by_cases h1 : st.client = r.client
        · by_cases h2 : st.dispute_state = DisputeState.Disputed
          · exfalso
            rw [chargebackHit, hty, hst] at hnc
            dsimp only at hnc
            rw [h1, h2] at hnc
            simp at hnc
          · exact Or.inr h2
        · exact Or.inl h1
      have h := process_chargeback_reject s r st hty hst hrej
      refine ⟨hnoop h, ?_⟩
      rw [h, stepDelta_dispute_like _ _ _ (Or.inr (Or.inr hty)), add_zero]

/-- Folding the conservation step over a whole record list. -/
theorem conservation_run (c : ℕ) (rs : List Transaction) :
    ∀ (T : Finset ℕ) (D : Int) (s : Engine), Inv c T D s →
      D + depPotential c rs ≤ I64.MAX → noChargebacks c s rs →
      (acct (runAll s rs) c).available + (acct (runAll s rs) c).held =
        ((acct s c).available + (acct s c).held) + clientDelta c s rs := by
  induction rs with
  | nil =>
    intro T D s _ _ _
    show (acct s c).available + (acct s c).held = (acct s c).available + (acct s c).held + 0
    rw [add_zero]
  | cons r rs ih =>
    intro T D s hInv hbound hnc
    obtain ⟨hhit, hnc'⟩ := hnc
    rw [depPotential_cons] at hbound
    have hp0 := depPotential_nonneg c rs
    have hdc := depContrib_nonneg c r
    have hstep := conservation_step c T D s r hInv (by omega) hhit
    have hrun := ih (insert r.tx T) (D + depContrib c r) (Engine.process s r) hstep.1
      (by omega) hnc'
    rw [show runAll s (r :: rs) = runAll (Engine.process s r) rs from rfl,
      show clientDelta c s (r :: rs) =
        stepDelta c s r + clientDelta c (Engine.process s r) rs from rfl,
      hrun, hstep.2]
    ring

/-- C4 counterexample: two accepted deposits of the largest representable
amount saturate `available` at `i64::MAX`, so the final total is strictly
less than the sum of the accepted deposit amounts even though the run
contains no chargeback. -/
theorem c4_counterexample :
    noChargebacks 1 Engine.new
      [⟨TransactionType.Deposit, 1, 1, some ⟨9223372036854775807, 4⟩⟩,
       ⟨TransactionType.Deposit, 1, 2, some ⟨9223372036854775807, 4⟩⟩] ∧
    (acct (runAll Engine.new
      [⟨TransactionType.Deposit, 1, 1, some ⟨9223372036854775807, 4⟩⟩,
       ⟨TransactionType.Deposit, 1, 2, some ⟨9223372036854775807, 4⟩⟩]) 1).total =
      9223372036854775807 ∧
    clientDelta 1 Engine.new
      [⟨TransactionType.Deposit, 1, 1, some ⟨9223372036854775807, 4⟩⟩,
       ⟨TransactionType.Deposit, 1, 2, some ⟨9223372036854775807, 4⟩⟩] =
      18446744073709551614 := by
  refine ⟨?_, ?_, ?_⟩
  · simp [noChargebacks, chargebackHit]
  · simp only [runAll, List.foldl, Engine.process, Engine.deposit, Dec.val_nonpos_iff,
      to_fixed_eq, Account.total, acct]
    decide
  · simp only [clientDelta, stepDelta, runAll, List.foldl, Engine.process, Engine.deposit,
      Dec.val_nonpos_iff, Dec.val_pos_iff, to_fixed_eq, acct]
    decide

/-- C4 (amended): for every finite input record sequence whose total
potential deposit amount for client `c` fits in the i64 range (so no
saturating operation ever clamps), if the run performs no successful
chargeback against `c`, the final total `available + held` equals the sum of
the fixed-point amounts of `c`'s accepted deposits minus the sum of the
fixed-point amounts of `c`'s accepted withdrawals, regardless of how many
dispute/resolve cycles occurred; without the range restriction saturation
breaks the equality. -/
theorem c4_conservation (rs : List Transaction) (c : ℕ)
    (hbound : depPotential c rs ≤ I64.MAX)
    (hnc : noChargebacks c Engine.new rs) :
    (acct (runAll Engine.new rs) c).total = clientDelta c Engine.new rs := by
  have hInv : Inv c ∅ 0 Engine.new := by
    refine ⟨fun t _ => rfl, fun t st h => Option.noConfusion h, ?_, ?_, ?_, ?_, ?_, ?_,
      le_refl 0⟩
    · exact le_refl 0
    · exact le_refl 0
    · rfl
    · rw [Dsum, Finset.sum_empty]
      exact le_refl 0
    · rw [Nsum, Finset.sum_empty]
      exact le_refl 0
    · exact le_refl 0
  have h := conservation_run c rs ∅ 0 Engine.new hInv (by rwa [zero_add]) hnc
  rw [Account.total, h]
  show 0 + 0 + clientDelta c Engine.new rs = clientDelta c Engine.new rs
  ring

/-- A concrete input sequence (deposit then partial withdrawal) used to
witness C4. -/
def c4WRecords : List Transaction :=
  [⟨TransactionType.Deposit, 1, 1, some ⟨10, 0⟩⟩,
   ⟨TransactionType.Withdrawal, 1, 2, some ⟨4, 0⟩⟩]

/-- Witness for C4 at a concrete input. -/
theorem c4_conservation_witness :
    (acct (runAll Engine.new c4WRecords) 1).total = clientDelta 1 Engine.new c4WRecords :=
  c4_conservation c4WRecords 1
    (by
      simp only [c4WRecords, depPotential, depContrib, List.map_cons, List.map_nil,
        List.sum_cons, List.sum_nil, Dec.val_pos_iff, to_fixed_eq, I64.MAX_eq]
      decide)
    (by simp [c4WRecords, noChargebacks, chargebackHit])

example : to_fixed ⟨12346, 4⟩ = 12346 := by rw [to_fixed_eq]; decide
example : to_fixed ⟨9223372036854775807, 4⟩ = 9223372036854775807 := by
  rw [to_fixed_eq]; decide
example : to_fixed ⟨9223372036854775808, 4⟩ = 0 := by rw [to_fixed_eq]; decide
example : to_fixed ⟨-15, 1⟩ = -15000 := by rw [to_fixed_eq]; decide
example :
    (Engine.process Engine.new
      ⟨TransactionType.Deposit, 1, 1, some ⟨100, 1⟩⟩).accounts 1 =
      some ⟨100000, 0, false⟩ := by
  simp only [Engine.process, Engine.deposit, Dec.val_nonpos_iff, to_fixed_eq, updMap,
    Engine.new, Account.default, satAdd, I64.MIN, I64.MAX]
  decide

end TxEngine
